import Mathlib

/-!
Shallow embedding of `basic_container_buffer` from
`src/Release/include/containerstream.h` (cpprestsdk container stream buffer).

The buffer state carries the three data members of the C++ class
(`m_data`, `m_current_position`, `m_size`) together with the mode/open
flags that the base class `streambuf_state_manager` (declared in
`astreambuf.h`, which is not part of the source set) maintains.  Machine
`size_t` values are modelled as `Nat`; the collection is a `List α` with
`Inhabited α` supplying the value-initialisation performed by
`std::vector::resize` / `std::basic_string::resize`.  `pos_type` /
`off_type` are modelled as `Int`, with `traits::eof()` being `-1`.
-/

namespace ContainerStream

/-- State of one `basic_container_buffer` instance.  `m_data`,
`m_current_position` and `m_size` are the C++ data members; `mode_in` /
`mode_out` record the `openmode` the buffer was constructed with, and
`read_open` / `write_open` record the per-direction open state kept by
the state-manager base class. -/
structure CBuf (α : Type) where
  m_data : List α
  m_current_position : Nat
  m_size : Nat
  mode_in : Bool
  mode_out : Bool
  read_open : Bool
  write_open : Bool
  deriving Repr, DecidableEq

variable {α : Type}

/-- Modelled from the spec: `can_read` of the state-manager base class
(`astreambuf.h`, not under `src/`): reading is possible iff the
construction mode included the read direction and that direction has not
been closed. -/
def can_read (s : CBuf α) : Bool :=
  s.mode_in && s.read_open

/-- Modelled from the spec: `can_write` of the state-manager base class
(`astreambuf.h`, not under `src/`): writing is possible iff the
construction mode included the write direction and that direction has
not been closed. -/
def can_write (s : CBuf α) : Bool :=
  s.mode_out && s.write_open

/-- Modelled from the spec: `is_open` of the state-manager base class:
the buffer is open iff it is open in either direction (§4.1
`can_seek() → bool: true iff the buffer is currently open (either
direction)`). -/
def is_open (s : CBuf α) : Bool :=
  can_read s || can_write s

/-- Modelled from the spec: closing the read direction (state-manager
base class); idempotent, only clears the per-direction open flag. -/
def close_read (s : CBuf α) : CBuf α :=
  { s with read_open := false }

/-- Modelled from the spec: closing the write direction (state-manager
base class); idempotent, only clears the per-direction open flag. -/
def close_write (s : CBuf α) : CBuf α :=
  { s with write_open := false }

/-- `in_avail`: `m_size - m_current_position` (the source asserts
`m_current_position <= m_size` before subtracting). -/
def in_avail (s : CBuf α) : Nat :=
  s.m_size - s.m_current_position

/-- `can_satisfy(size_t)`: a read can be satisfied, at least partially,
unless the read position is at the very end of the buffer. -/
def can_satisfy (s : CBuf α) (_count : Nat) : Bool :=
  decide (0 < in_avail s)

/-- `update_current_position(newPos)`: sets the head to `newPos` and,
when the buffer can write and the committed size is below the new head,
raises `m_size` to the new head. -/
def update_current_position (s : CBuf α) (newPos : Nat) : CBuf α :=
  if can_write s = true ∧ s.m_size < newPos then
    { s with m_current_position := newPos, m_size := newPos }
  else
    { s with m_current_position := newPos }

/-- `std::vector::resize` / `std::basic_string::resize` on the model
collection: truncates to `n` elements when `n` is smaller, extends with
value-initialised elements when `n` is larger. -/
def listResize [Inhabited α] (l : List α) (n : Nat) : List α :=
  l.take n ++ List.replicate (n - l.length) default

/-- `resize_for_write(newPos)`: resizes the container to `newPos`
exactly when `newPos > m_size`. -/
def resize_for_write [Inhabited α] (s : CBuf α) (newPos : Nat) : CBuf α :=
  if s.m_size < newPos then { s with m_data := listResize s.m_data newPos } else s

/-- `std::copy(src, src + src.length, begin(dst) + pos)` on the model
collection: overwrites `dst` at offsets `[pos, pos + src.length)`. -/
def listCopyAt (dst : List α) (pos : Nat) (src : List α) : List α :=
  dst.take pos ++ src ++ dst.drop (pos + src.length)

/-- `write(ptr, count)`: the `count` elements at `ptr` are modelled as
the list `d` (so `count = d.length`).  Returns the bytes-written result
together with the post-state. -/
def write [Inhabited α] (s : CBuf α) (d : List α) : Nat × CBuf α :=
  if can_write s = false ∨ d.length = 0 then (0, s)
  else
    let newSize := s.m_current_position + d.length
    let s1 := resize_for_write s newSize
    let s2 := { s1 with m_data := listCopyAt s1.m_data s.m_current_position d }
    (d.length, update_current_position s2 newSize)

/-- `read(ptr, count, advance)`: returns the bytes-read result, the
elements copied out into `ptr`, and the post-state. -/
def read (s : CBuf α) (count : Nat) (advance : Bool) : Nat × List α × CBuf α :=
  if can_satisfy s count = true then
    let read_size := min count (in_avail s)
    let newPos := s.m_current_position + read_size
    let copied := (s.m_data.drop s.m_current_position).take read_size
    if advance = true then (read_size, copied, update_current_position s newPos)
    else (read_size, copied, s)
  else (0, [], s)

/-- Modelled from the spec: the public read entry points (`getn`,
`scopy` of the state-manager base class in `astreambuf.h`, not under
`src/`) report 0 bytes when the buffer is not open for reading before
delegating to `read`. -/
def getn (s : CBuf α) (count : Nat) (advance : Bool) : Nat × List α × CBuf α :=
  if can_read s = false then (0, [], s) else read s count advance

/-- `alloc(count)`: returns the offset of the writable region (the C++
pointer `&m_data[m_current_position]`) or `none` when not writable,
together with the post-state. -/
def alloc [Inhabited α] (s : CBuf α) (count : Nat) : Option Nat × CBuf α :=
  if can_write s = false then (none, s)
  else (some s.m_current_position, resize_for_write s (s.m_current_position + count))

/-- `commit(actual)`: advances the head past the committed region. -/
def commit (s : CBuf α) (actual : Nat) : CBuf α :=
  update_current_position s (s.m_current_position + actual)

/-- The caller-side filling of a region returned by `alloc`: writing the
elements `d` directly into storage at offset `off`. -/
def fillAt (s : CBuf α) (off : Nat) (d : List α) : CBuf α :=
  { s with m_data := listCopyAt s.m_data off d }

/-- `acquire(ptr, count)`: returns the boolean result together with the
view (offset into storage, available count) when one is produced. -/
def acquire (s : CBuf α) : Bool × Option (Nat × Nat) :=
  if can_read s = false then (false, none)
  else if 0 < in_avail s then (true, some (s.m_current_position, in_avail s))
  else (!is_open s, none)

/-- `release(ptr, count)`: advances the head past the consumed region. -/
def release (s : CBuf α) (count : Nat) : CBuf α :=
  update_current_position s (s.m_current_position + count)

/-- `seekpos(position, mode)`: `position` is a `pos_type` (modelled as
`Int`); `mIn` / `mOut` are the `in` / `out` bits of the `openmode`
argument.  Returns the new position or `-1` (`traits::eof()`). -/
def seekpos [Inhabited α] (s : CBuf α) (position : Int) (mIn mOut : Bool) : Int × CBuf α :=
  if 0 ≤ position then
    let pos := position.toNat
    if mIn = true ∧ can_read s = true ∧ position ≤ (s.m_size : Int) then
      let s1 := update_current_position s pos
      ((s1.m_current_position : Int), s1)
    else if mOut = true ∧ can_write s = true then
      let s1 := update_current_position (resize_for_write s pos) pos
      ((s1.m_current_position : Int), s1)
    else ((-1 : Int), s)
  else ((-1 : Int), s)

/-- `seekdir`: `beg`, `cur`, `end` (the last named `fin` here since
`end` is a keyword). -/
inductive SeekDir where
  | beg
  | cur
  | fin
  deriving Repr, DecidableEq

/-- `seekoff(offset, way, mode)`: resolves the relative offset to an
absolute position and delegates to `seekpos`. -/
def seekoff [Inhabited α] (s : CBuf α) (offset : Int) (way : SeekDir) (mIn mOut : Bool) :
    Int × CBuf α :=
  match way with
  | SeekDir.beg => seekpos s (0 + offset) mIn mOut
  | SeekDir.cur => seekpos s ((s.m_current_position : Int) + offset) mIn mOut
  | SeekDir.fin => seekpos s ((s.m_size : Int) + offset) mIn mOut

/-- `_ungetc`: seeks one position back from the current read position
(mode `in`); on failure reports eof with the state left by the failed
seek, otherwise re-reads the element now under the head without
advancing. -/
def ungetc [Inhabited α] (s : CBuf α) : Int × CBuf α :=
  let r := seekoff s (-1) SeekDir.cur true false
  if r.1 = -1 then (-1, r.2)
  else
    let g := read r.2 1 false
    (if g.1 = 1 then 0 else -1, g.2.2)

/-- `basic_container_buffer(mode)`: the constructor starting from an
empty collection; `m_current_position` and `m_size` start at 0. -/
def init_empty (mIn mOut : Bool) : CBuf α :=
  ⟨[], 0, 0, mIn, mOut, true, true⟩

/-- `basic_container_buffer(data, mode)`: the constructor moving an
existing collection in; the head starts at 0 for read mode and at the
collection's size otherwise, `m_size` is the collection's size. -/
def init_data (d : List α) (mIn mOut : Bool) : CBuf α :=
  ⟨d, if mIn then 0 else d.length, d.length, mIn, mOut, true, true⟩

/-- `validate_mode(mode)`: simultaneous read and write is disallowed. -/
def validate_mode (mIn mOut : Bool) : Bool :=
  !(mIn && mOut)

/-- Construction through `basic_container_buffer(data, mode)`: the
constructor body calls `validate_mode`, which throws
`std::invalid_argument` when both direction bits are set. -/
def construct_data (d : List α) (mIn mOut : Bool) : Except String (CBuf α) :=
  if mIn && mOut then
    Except.error "this combination of modes on container stream not supported"
  else
    Except.ok (init_data d mIn mOut)

/-- Construction through `basic_container_buffer(mode)`: the constructor
body is empty — no call to `validate_mode` is made. -/
def construct_empty (mIn mOut : Bool) : Except String (CBuf α) :=
  Except.ok (init_empty mIn mOut)

/-- The public operations of the Buffer Core, used to quantify over
"every operation" in the frame and invariant claims. -/
inductive BufOp (α : Type) where
  | write (d : List α)
  | getn (count : Nat) (advance : Bool)
  | seekpos (position : Int) (mIn mOut : Bool)
  | seekoff (offset : Int) (way : SeekDir) (mIn mOut : Bool)
  | alloc (count : Nat)
  | commit (actual : Nat)
  | release (count : Nat)
  | ungetc
  | close_read
  | close_write

/-- State effect of one public operation. -/
def step [Inhabited α] (op : BufOp α) (s : CBuf α) : CBuf α :=
  match op with
  | BufOp.write d => (write s d).2
  | BufOp.getn count advance => (getn s count advance).2.2
  | BufOp.seekpos position mIn mOut => (seekpos s position mIn mOut).2
  | BufOp.seekoff offset way mIn mOut => (seekoff s offset way mIn mOut).2
  | BufOp.alloc count => (alloc s count).2
  | BufOp.commit actual => commit s actual
  | BufOp.release count => release s count
  | BufOp.ungetc => (ungetc s).2
  | BufOp.close_read => close_read s
  | BufOp.close_write => close_write s

/-- The state invariant of the Buffer Core: the head never passes the
committed size, which never passes the storage length. -/
def Inv (s : CBuf α) : Prop :=
  s.m_current_position ≤ s.m_size ∧ s.m_size ≤ s.m_data.length

instance (s : CBuf α) : Decidable (Inv s) := by
  unfold Inv; infer_instance

/-- Contract-side precondition of each public operation: `release`
confirms consumption of (part of) a previously `acquire`d view, so the
released count is bounded by the available count; `commit` confirms data
written into a region returned by a previous successful `alloc`, so the
buffer can write and storage covers the committed region.  All other
operations have no caller obligation. -/
def opPre [Inhabited α] (op : BufOp α) (s : CBuf α) : Prop :=
  match op with
  | BufOp.release count => s.m_current_position + count ≤ s.m_size
  | BufOp.commit actual =>
      can_write s = true ∧ s.m_current_position + actual ≤ s.m_data.length
  | _ => True

end ContainerStream

namespace ContainerStream

variable {α : Type}

@[simp]
theorem length_listResize [Inhabited α] (l : List α) (n : Nat) :
    (listResize l n).length = n := by
  simp [listResize]
  omega

theorem length_listCopyAt (dst : List α) (pos : Nat) (src : List α)
    (h : pos + src.length ≤ dst.length) :
    (listCopyAt dst pos src).length = dst.length := by
  simp [listCopyAt]
  omega

theorem listCopyAt_take (dst : List α) (pos : Nat) (src : List α)
    (h : pos ≤ dst.length) :
    (listCopyAt dst pos src).take pos = dst.take pos := by
  unfold listCopyAt
  rw [List.append_assoc, List.take_left']
  simp [h]

theorem listCopyAt_middle (dst : List α) (pos : Nat) (src : List α)
    (h : pos ≤ dst.length) :
    ((listCopyAt dst pos src).drop pos).take src.length = src := by
  unfold listCopyAt
  rw [List.append_assoc, List.drop_left', List.take_left]
  simp [h]

end ContainerStream

namespace ContainerStream

variable {α : Type}

@[simp]
theorem update_m_data (s : CBuf α) (n : Nat) :
    (update_current_position s n).m_data = s.m_data := by
  unfold update_current_position; split <;> rfl

@[simp]
theorem update_m_current_position (s : CBuf α) (n : Nat) :
    (update_current_position s n).m_current_position = n := by
  unfold update_current_position; split <;> rfl

@[simp]
theorem update_mode_in (s : CBuf α) (n : Nat) :
    (update_current_position s n).mode_in = s.mode_in := by
  unfold update_current_position; split <;> rfl

@[simp]
theorem update_mode_out (s : CBuf α) (n : Nat) :
    (update_current_position s n).mode_out = s.mode_out := by
  unfold update_current_position; split <;> rfl

@[simp]
theorem update_read_open (s : CBuf α) (n : Nat) :
    (update_current_position s n).read_open = s.read_open := by
  unfold update_current_position; split <;> rfl

@[simp]
theorem update_write_open (s : CBuf α) (n : Nat) :
    (update_current_position s n).write_open = s.write_open := by
  unfold update_current_position; split <;> rfl

@[simp]
theorem update_m_size (s : CBuf α) (n : Nat) :
    (update_current_position s n).m_size =
      if can_write s = true ∧ s.m_size < n then n else s.m_size := by
  unfold update_current_position; split <;> simp_all

@[simp]
theorem resize_m_current_position [Inhabited α] (s : CBuf α) (n : Nat) :
    (resize_for_write s n).m_current_position = s.m_current_position := by
  unfold resize_for_write; split <;> rfl

@[simp]
theorem resize_m_size [Inhabited α] (s : CBuf α) (n : Nat) :
    (resize_for_write s n).m_size = s.m_size := by
  unfold resize_for_write; split <;> rfl

@[simp]
theorem resize_mode_in [Inhabited α] (s : CBuf α) (n : Nat) :
    (resize_for_write s n).mode_in = s.mode_in := by
  unfold resize_for_write; split <;> rfl

@[simp]
theorem resize_mode_out [Inhabited α] (s : CBuf α) (n : Nat) :
    (resize_for_write s n).mode_out = s.mode_out := by
  unfold resize_for_write; split <;> rfl

@[simp]
theorem resize_read_open [Inhabited α] (s : CBuf α) (n : Nat) :
    (resize_for_write s n).read_open = s.read_open := by
  unfold resize_for_write; split <;> rfl

@[simp]
theorem resize_write_open [Inhabited α] (s : CBuf α) (n : Nat) :
    (resize_for_write s n).write_open = s.write_open := by
  unfold resize_for_write; split <;> rfl

theorem resize_m_data [Inhabited α] (s : CBuf α) (n : Nat) :
    (resize_for_write s n).m_data =
      if s.m_size < n then listResize s.m_data n else s.m_data := by
  unfold resize_for_write; split <;> simp_all

@[simp]
theorem can_write_update (s : CBuf α) (n : Nat) :
    can_write (update_current_position s n) = can_write s := by
  simp [can_write]

@[simp]
theorem can_read_update (s : CBuf α) (n : Nat) :
    can_read (update_current_position s n) = can_read s := by
  simp [can_read]

@[simp]
theorem can_write_resize [Inhabited α] (s : CBuf α) (n : Nat) :
    can_write (resize_for_write s n) = can_write s := by
  simp [can_write]

@[simp]
theorem can_read_resize [Inhabited α] (s : CBuf α) (n : Nat) :
    can_read (resize_for_write s n) = can_read s := by
  simp [can_read]

theorem update_m_size_of_not_write (s : CBuf α) (n : Nat) (h : can_write s = false) :
    (update_current_position s n).m_size = s.m_size := by
  simp [h]

end ContainerStream

namespace ContainerStream

variable {α : Type}

theorem seekpos_flags [Inhabited α] (s : CBuf α) (p : Int) (mIn mOut : Bool) :
    (seekpos s p mIn mOut).2.mode_in = s.mode_in ∧
    (seekpos s p mIn mOut).2.mode_out = s.mode_out ∧
    (seekpos s p mIn mOut).2.read_open = s.read_open ∧
    (seekpos s p mIn mOut).2.write_open = s.write_open := by
  unfold seekpos
  dsimp only
  split
  · split
    · simp
    · split
      · simp
      · simp
  · simp

theorem seekpos_m_size_of_not_write [Inhabited α] (s : CBuf α) (p : Int)
    (mIn mOut : Bool) (hw : can_write s = false) :
    (seekpos s p mIn mOut).2.m_size = s.m_size := by
  unfold seekpos
  dsimp only
  split
  · split
    · simp [hw]
    · split
      · rename_i hB
        rw [hw] at hB
        simp at hB
      · rfl
  · rfl

theorem seekoff_flags [Inhabited α] (s : CBuf α) (off : Int) (way : SeekDir)
    (mIn mOut : Bool) :
    (seekoff s off way mIn mOut).2.mode_in = s.mode_in ∧
    (seekoff s off way mIn mOut).2.mode_out = s.mode_out ∧
    (seekoff s off way mIn mOut).2.read_open = s.read_open ∧
    (seekoff s off way mIn mOut).2.write_open = s.write_open := by
  cases way <;> exact seekpos_flags ..

theorem seekoff_m_size_of_not_write [Inhabited α] (s : CBuf α) (off : Int)
    (way : SeekDir) (mIn mOut : Bool) (hw : can_write s = false) :
    (seekoff s off way mIn mOut).2.m_size = s.m_size := by
  cases way <;> exact seekpos_m_size_of_not_write _ _ _ _ hw

theorem read_flags (s : CBuf α) (count : Nat) (advance : Bool) :
    (read s count advance).2.2.mode_in = s.mode_in ∧
    (read s count advance).2.2.mode_out = s.mode_out ∧
    (read s count advance).2.2.read_open = s.read_open ∧
    (read s count advance).2.2.write_open = s.write_open := by
  unfold read
  dsimp only
  split
  · split <;> simp
  · simp

theorem read_m_size_of_not_write (s : CBuf α) (count : Nat) (advance : Bool)
    (hw : can_write s = false) :
    (read s count advance).2.2.m_size = s.m_size := by
  unfold read
  dsimp only
  split
  · split
    · simp [hw]
    · rfl
  · rfl

theorem can_write_of_flags (s t : CBuf α) (h1 : t.mode_out = s.mode_out)
    (h2 : t.write_open = s.write_open) : can_write t = can_write s := by
  simp [can_write, h1, h2]

/-- One public operation leaves `m_size` untouched on a buffer that
cannot write: `m_size` is only ever raised inside
`update_current_position`, behind a `can_write` test, and the mode flags
themselves are never modified by any operation. -/
theorem step_m_size_frame [Inhabited α] (op : BufOp α) (s : CBuf α)
    (hw : can_write s = false) :
    (step op s).m_size = s.m_size := by
  cases op with
  | write d => simp [step, write, hw]
  | getn count advance =>
      simp only [step, getn]
      split
      · rfl
      · exact read_m_size_of_not_write _ _ _ hw
  | seekpos position mIn mOut => exact seekpos_m_size_of_not_write _ _ _ _ hw
  | seekoff offset way mIn mOut => exact seekoff_m_size_of_not_write _ _ _ _ _ hw
  | alloc count => simp [step, alloc, hw]
  | commit actual => simp [step, commit, hw]
  | release count => simp [step, release, hw]
  | ungetc =>
      simp only [step, ungetc]
      split
      · exact seekoff_m_size_of_not_write _ _ _ _ _ hw
      · have hf := seekoff_flags s (-1) SeekDir.cur true false
        have hw2 : can_write (seekoff s (-1) SeekDir.cur true false).2 = false :=
          (can_write_of_flags _ _ hf.2.1 hf.2.2.2).trans hw
        exact (read_m_size_of_not_write _ _ _ hw2).trans
          (seekoff_m_size_of_not_write _ _ _ _ _ hw)
  | close_read => simp [step, close_read]
  | close_write => simp [step, close_write]

/-- One public operation never changes the construction-mode flags. -/
theorem step_mode_flags [Inhabited α] (op : BufOp α) (s : CBuf α) :
    (step op s).mode_in = s.mode_in ∧ (step op s).mode_out = s.mode_out := by
  cases op with
  | write d =>
      simp only [step, write]
      split
      · exact ⟨rfl, rfl⟩
      · simp
  | getn count advance =>
      simp only [step, getn]
      split
      · exact ⟨rfl, rfl⟩
      · exact ⟨(read_flags ..).1, (read_flags ..).2.1⟩
  | seekpos position mIn mOut => exact ⟨(seekpos_flags ..).1, (seekpos_flags ..).2.1⟩
  | seekoff offset way mIn mOut => exact ⟨(seekoff_flags ..).1, (seekoff_flags ..).2.1⟩
  | alloc count =>
      simp only [step, alloc]
      split
      · exact ⟨rfl, rfl⟩
      · simp
  | commit actual => simp [step, commit]
  | release count => simp [step, release]
  | ungetc =>
      simp only [step, ungetc]
      split
      · exact ⟨(seekoff_flags ..).1, (seekoff_flags ..).2.1⟩
      · refine ⟨((read_flags ..).1).trans (seekoff_flags ..).1,
          ((read_flags ..).2.1).trans (seekoff_flags ..).2.1⟩
  | close_read => simp [step, close_read]
  | close_write => simp [step, close_write]

/-- Folding any operation sequence over a buffer whose construction mode
excluded writing leaves `m_size` unchanged. -/
theorem foldl_step_m_size_frame [Inhabited α] (ops : List (BufOp α)) (s : CBuf α)
    (h : s.mode_out = false) :
    (ops.foldl (fun t op => step op t) s).m_size = s.m_size := by
  induction ops generalizing s with
  | nil => rfl
  | cons op rest ih =>
      have hw : can_write s = false := by simp [can_write, h]
      have hmode : (step op s).mode_out = false :=
        ((step_mode_flags op s).2).trans h
      simp only [List.foldl_cons]
      exact (ih (step op s) hmode).trans (step_m_size_frame op s hw)

end ContainerStream

namespace ContainerStream

variable {α : Type}

/-- C10: for a buffer constructed in read mode from a collection
(`basic_container_buffer(data, mode)` with the `in` bit), `m_size`
equals the initial collection's length after every sequence of public
operations: the committed size is only ever raised inside
`update_current_position` behind a `can_write` test, and a read-mode
buffer can never write. -/
theorem read_mode_committed_size_constant [Inhabited α] (d : List α)
    (ops : List (BufOp α)) :
    (ops.foldl (fun t op => step op t) (init_data d true false)).m_size = d.length :=
  foldl_step_m_size_frame ops (init_data d true false) rfl

/-- C5 (amended): `acquire` returns `true` exactly when the buffer is
open for reading and data is available at the head, in which case it
hands out the view `(m_current_position, in_avail)`; in every other case
— including a fully closed buffer — it returns `false`: the
not-open-for-reading check precedes the end-of-stream fallback, and when
the buffer can read the `!is_open()` fallback is necessarily `false`. -/
theorem acquire_spec (s : CBuf α) :
    acquire s =
      if can_read s = true ∧ 0 < in_avail s then
        (true, some (s.m_current_position, in_avail s))
      else (false, none) := by
  unfold acquire is_open
  cases h : can_read s with
  | false => simp [h]
  | true =>
      simp only [h]
      split
      · simp_all
      · simp_all

/-- C5 counterexample: a read-mode buffer whose data is exhausted and
whose read direction has been closed is fully closed (`is_open` is
`false`) with no data available, yet `acquire` returns `false`, not the
`true` (genuine end-of-stream) the claim requires. -/
theorem acquire_closed_counterexample :
    acquire (close_read (init_data ([] : List Nat) true false)) = (false, none) ∧
    is_open (close_read (init_data ([] : List Nat) true false)) = false ∧
    in_avail (close_read (init_data ([] : List Nat) true false)) = 0 := by
  decide

/-- C6 (amended): only the constructor taking an existing collection
(`basic_container_buffer(data, mode)`) validates the mode, failing
exactly when both direction flags are set; the constructor starting from
an empty collection (`basic_container_buffer(mode)`) performs no
validation and always constructs successfully. -/
theorem construct_mode_validation (d : List α) (mIn mOut : Bool) :
    ((construct_data d mIn mOut).isOk = false ↔ mIn = true ∧ mOut = true) ∧
    (construct_empty (α := α) mIn mOut).isOk = true := by
  refine ⟨?_, rfl⟩
  unfold construct_data
  cases mIn <;> cases mOut <;> simp [Except.isOk, Except.toBool]

/-- C6 counterexample: constructing through the empty-collection
constructor with both the read flag and the write flag set succeeds —
no invalid-configuration error is raised, and the resulting buffer is
usable in both directions. -/
theorem construct_empty_both_modes_counterexample :
    construct_empty (α := Nat) true true = Except.ok (init_empty true true) ∧
    can_read (init_empty (α := Nat) true true) = true ∧
    can_write (init_empty (α := Nat) true true) = true :=
  ⟨rfl, rfl, rfl⟩

end ContainerStream

namespace ContainerStream

variable {α : Type}

theorem listResize_grow [Inhabited α] (w : List α) (k : Nat) :
    listResize w (w.length + k) = w ++ List.replicate k default := by
  unfold listResize
  rw [List.take_of_length_le (Nat.le_add_right _ _)]
  congr 1
  congr 1
  omega

theorem listCopyAt_append [Inhabited α] (w rest d : List α)
    (h : rest.length = d.length) :
    listCopyAt (w ++ rest) w.length d = w ++ d := by
  unfold listCopyAt
  rw [List.take_left, List.drop_eq_nil_of_le (by simp [h]), List.append_nil]

/-- Appending through `write` on a buffer whose head, committed size and
storage length agree (the shape every pure sequence of writes
maintains). -/
theorem write_append_state [Inhabited α] (w d : List α) (mi ro : Bool) :
    (write (⟨w, w.length, w.length, mi, true, ro, true⟩ : CBuf α) d).2 =
      ⟨w ++ d, (w ++ d).length, (w ++ d).length, mi, true, ro, true⟩ := by
  by_cases hd : d.length = 0
  · rw [List.length_eq_zero.mp hd]
    simp [write]
  · unfold write
    rw [if_neg (by simp [can_write, hd])]
    dsimp only
    unfold resize_for_write
    rw [if_pos (by dsimp only; omega)]
    dsimp only
    rw [listResize_grow, listCopyAt_append _ _ _ (by simp)]
    unfold update_current_position
    rw [if_pos (by exact ⟨rfl, by dsimp only; omega⟩)]
    simp

/-- Folding writes accumulates the chunks in order, keeping head,
committed size and storage length at the total length. -/
theorem foldl_write_state [Inhabited α] (chunks : List (List α)) (w : List α)
    (mi ro : Bool) :
    chunks.foldl (fun s d => (write s d).2)
        (⟨w, w.length, w.length, mi, true, ro, true⟩ : CBuf α) =
      ⟨w ++ chunks.flatten, (w ++ chunks.flatten).length, (w ++ chunks.flatten).length,
        mi, true, ro, true⟩ := by
  induction chunks generalizing w with
  | nil => simp
  | cons d rest ih =>
      simp only [List.foldl_cons, List.flatten_cons]
      rw [write_append_state, ih (w ++ d)]
      simp

/-- Reading a read-mode buffer constructed from `v` in full, from
offset 0, returns all of `v` and reports `v.length` elements. -/
theorem getn_all (v : List α) :
    (getn (init_data v true false) v.length true).1 = v.length ∧
    (getn (init_data v true false) v.length true).2.1 = v := by
  unfold getn init_data
  rw [if_neg (by simp [can_read])]
  unfold read
  by_cases hv : v.length = 0
  · rw [if_neg (by simp [can_satisfy, in_avail, hv])]
    rw [List.length_eq_zero.mp hv]
    exact ⟨rfl, rfl⟩
  · rw [if_pos (by simp [can_satisfy, in_avail]; omega)]
    dsimp only
    simp [in_avail, List.take_of_length_le]

/-- C1: any sequence of writes into an empty write-mode buffer leaves
`m_size` equal to the total element count `L` and the storage equal to
the concatenation of the chunks, and a read-mode buffer constructed from
that collection, read in full from offset 0, reports `L` elements and
yields exactly the written elements in order. -/
theorem write_then_read_roundtrip [Inhabited α] (chunks : List (List α)) :
    ((chunks.foldl (fun s d => (write s d).2) (init_empty false true)).m_size =
        chunks.flatten.length) ∧
    ((chunks.foldl (fun s d => (write s d).2) (init_empty false true)).m_data =
        chunks.flatten) ∧
    ((getn (init_data
        (chunks.foldl (fun s d => (write s d).2) (init_empty false true)).m_data
        true false) chunks.flatten.length true).1 = chunks.flatten.length) ∧
    ((getn (init_data
        (chunks.foldl (fun s d => (write s d).2) (init_empty false true)).m_data
        true false) chunks.flatten.length true).2.1 = chunks.flatten) := by
  have hfold :
      chunks.foldl (fun s d => (write s d).2) (init_empty (α := α) false true) =
        ⟨chunks.flatten, chunks.flatten.length, chunks.flatten.length,
          false, true, true, true⟩ := by
    have := foldl_write_state chunks ([] : List α) false true
    simpa [init_empty] using this
  rw [hfold]
  exact ⟨rfl, rfl, (getn_all chunks.flatten).1, (getn_all chunks.flatten).2⟩

end ContainerStream

namespace ContainerStream

variable {α : Type}

/-- C3: `read` (behind the state-manager gate) returns 0 and changes
nothing when the buffer is not open for reading or the head sits at the
committed size; otherwise it returns `n = min(count, m_size −
m_current_position)`, hands out exactly the `n` stored elements starting
at the head, and advances the head by `n` exactly when `advance` is
requested. -/
theorem getn_spec (s : CBuf α) (count : Nat) (adv : Bool) (hInv : Inv s) :
    ((can_read s = false ∨ s.m_current_position = s.m_size) →
        getn s count adv = (0, [], s)) ∧
    (can_read s = true → s.m_current_position < s.m_size →
      (getn s count adv).1 = min count (s.m_size - s.m_current_position) ∧
      (getn s count adv).2.1 =
        (s.m_data.drop s.m_current_position).take
          (min count (s.m_size - s.m_current_position)) ∧
      (getn s count adv).2.2 =
        (if adv = true then
          { s with m_current_position :=
              s.m_current_position + min count (s.m_size - s.m_current_position) }
         else s)) := by
  obtain ⟨hps, hsl⟩ := hInv
  constructor
  · rintro (h | h)
    · simp [getn, h]
    · unfold getn read
      have hcs : can_satisfy s count = false := by
        simp [can_satisfy, in_avail, h]
      split
      · rfl
      · rw [if_neg (by simp [hcs])]
  · intro hr hlt
    unfold getn read
    rw [if_neg (by simp [hr])]
    have hcs : can_satisfy s count = true := by
      simp only [can_satisfy, in_avail, decide_eq_true_eq]
      omega
    rw [if_pos hcs]
    cases adv with
    | false => exact ⟨rfl, rfl, by simp⟩
    | true =>
        refine ⟨rfl, rfl, ?_⟩
        simp only [if_pos rfl]
        show update_current_position s _ = _
        unfold update_current_position
        rw [if_neg (by
          rintro ⟨-, hsz⟩
          have h1 := Nat.min_le_right count (in_avail s)
          have h2 : in_avail s = s.m_size - s.m_current_position := rfl
          omega)]
        rfl

/-- C3 witness: a concrete read-mode buffer with three elements, read
with a count of 2, returns 2 elements and advances the head to 2. -/
theorem getn_spec_witness :
    Inv (init_data [5, 6, 7] true false : CBuf Nat) ∧
    (getn (init_data [5, 6, 7] true false : CBuf Nat) 2 true).1 = 2 ∧
    (getn (init_data [5, 6, 7] true false : CBuf Nat) 2 true).2.1 = [5, 6] := by
  have h := (getn_spec (init_data [5, 6, 7] true false : CBuf Nat) 2 true
    (by decide)).2 rfl (by decide)
  exact ⟨by decide, by simpa using h.1, by simpa using h.2.1⟩

end ContainerStream

namespace ContainerStream

variable {α : Type}

theorem listResize_take [Inhabited α] (l : List α) (n k : Nat) (h : k ≤ n)
    (h2 : k ≤ l.length) :
    (listResize l n).take k = l.take k := by
  unfold listResize
  rw [List.take_append_of_le_length (by rw [List.length_take]; omega), List.take_take]
  congr 1
  omega

/-- Unfolding of `write` on a writable buffer with a non-empty chunk. -/
theorem write_unfold [Inhabited α] (s : CBuf α) (d : List α)
    (hw : can_write s = true) (hd : d.length ≠ 0) :
    write s d = (d.length,
      update_current_position
        { resize_for_write s (s.m_current_position + d.length) with
            m_data := listCopyAt
              (resize_for_write s (s.m_current_position + d.length)).m_data
              s.m_current_position d }
        (s.m_current_position + d.length)) := by
  unfold write
  rw [if_neg (by simp [hw, hd])]

/-- Storage length left by `write` on a writable buffer: exactly
`m_current_position + d.length` when that exceeds `m_size` (the
container is resized to that value, shrinking any slack a prior `alloc`
left), the old length otherwise. -/
theorem write_m_data_length [Inhabited α] (s : CBuf α) (d : List α)
    (hInv : Inv s) (hw : can_write s = true) (hd : d.length ≠ 0) :
    (write s d).2.m_data.length =
      if s.m_size < s.m_current_position + d.length
      then s.m_current_position + d.length else s.m_data.length := by
  obtain ⟨data, pos, sz, mi, mo, ro, wo⟩ := s
  obtain ⟨h1, h2⟩ := hInv
  dsimp only at h1 h2
  unfold write
  rw [if_neg (by simp [hw, hd])]
  dsimp only
  unfold resize_for_write
  by_cases hsz : sz < pos + d.length
  · rw [if_pos hsz]
    dsimp only
    rw [update_m_data]
    show (listCopyAt (listResize data (pos + d.length)) pos d).length = _
    rw [length_listCopyAt _ _ _ (by simp [length_listResize])]
    rw [length_listResize, if_pos hsz]
  · rw [if_neg hsz]
    dsimp only
    rw [update_m_data]
    show (listCopyAt data pos d).length = _
    rw [length_listCopyAt _ _ _ (by omega), if_neg hsz]

/-- C2 (amended): `write(d, count)` returns 0 and changes nothing when
the buffer is not open for writing or the count is 0; otherwise it
returns the full count, advances the head by the count, raises `m_size`
to the head when the head passed it, stores exactly `d` at the old head
preserving everything before it, and resizes storage to exactly `head +
count` whenever that exceeds `m_size` — growing the container in every
slack-free state, but shrinking over-allocation left by a prior `alloc`
(never below the new write extent). -/
theorem write_spec [Inhabited α] (s : CBuf α) (d : List α) (hInv : Inv s) :
    ((can_write s = false ∨ d.length = 0) → write s d = (0, s)) ∧
    (can_write s = true → d.length ≠ 0 →
      (write s d).1 = d.length ∧
      (write s d).2.m_current_position = s.m_current_position + d.length ∧
      (write s d).2.m_size = max s.m_size (s.m_current_position + d.length) ∧
      (write s d).2.m_data.length =
        (if s.m_size < s.m_current_position + d.length
         then s.m_current_position + d.length else s.m_data.length) ∧
      ((write s d).2.m_data.drop s.m_current_position).take d.length = d ∧
      (write s d).2.m_data.take s.m_current_position =
        s.m_data.take s.m_current_position) := by
  obtain ⟨data, pos, sz, mi, mo, ro, wo⟩ := s
  obtain ⟨h1, h2⟩ := hInv
  dsimp only at h1 h2
  constructor
  · intro h
    unfold write
    rw [if_pos h]
  · intro hw hd
    unfold write
    rw [if_neg (by simp [hw, hd])]
    dsimp only
    unfold resize_for_write
    by_cases hsz : sz < pos + d.length
    · rw [if_pos hsz]
      dsimp only
      unfold update_current_position
      rw [if_pos ⟨hw, hsz⟩]
      refine ⟨rfl, rfl, by dsimp only; omega, ?_, ?_, ?_⟩
      · show (listCopyAt (listResize data (pos + d.length)) pos d).length = _
        rw [length_listCopyAt _ _ _ (by simp [length_listResize])]
        rw [length_listResize, if_pos hsz]
      · show ((listCopyAt (listResize data (pos + d.length)) pos d).drop pos).take
          d.length = d
        exact listCopyAt_middle _ _ _ (by rw [length_listResize]; omega)
      · show (listCopyAt (listResize data (pos + d.length)) pos d).take pos =
          data.take pos
        rw [listCopyAt_take _ _ _ (by rw [length_listResize]; omega)]
        exact listResize_take _ _ _ (by omega) (by omega)
    · rw [if_neg hsz]
      dsimp only
      unfold update_current_position
      rw [if_neg (by rintro ⟨-, hlt⟩; exact hsz (by simpa using hlt))]
      refine ⟨rfl, rfl, by dsimp only; omega, ?_, ?_, ?_⟩
      · show (listCopyAt data pos d).length = _
        rw [length_listCopyAt _ _ _ (by omega), if_neg hsz]
      · show ((listCopyAt data pos d).drop pos).take d.length = d
        exact listCopyAt_middle _ _ _ (by omega)
      · show (listCopyAt data pos d).take pos = data.take pos
        exact listCopyAt_take _ _ _ (by omega)

/-- C2 witness: writing `[7, 8]` into a fresh write-mode buffer returns
the full count 2, advances the head to 2, raises `m_size` to 2 and
stores the two elements. -/
theorem write_spec_witness :
    Inv (init_empty false true : CBuf Nat) ∧
    (write (init_empty false true : CBuf Nat) [7, 8]).1 = 2 ∧
    (write (init_empty false true : CBuf Nat) [7, 8]).2.m_size = 2 := by
  have h := (write_spec (init_empty false true : CBuf Nat) [7, 8]
    (by decide)).2 rfl (by decide)
  exact ⟨by decide, by simpa using h.1, by simpa using h.2.2.1⟩

/-- C2 counterexample: reachable through the public contract — `alloc 5`
into an empty write-mode buffer, caller fills the view, `commit 2` —
leaving storage of length 5 with `m_size = 2`; the subsequent
`write [7]` has `cursor + count = 3 > m_size` and resizes storage from
length 5 down to 3: a write that truncates the container, refuting
"never truncating". -/
theorem write_truncates_counterexample :
    (commit (fillAt (alloc (init_empty (α := Nat) false true) 5).2 0
        [1, 2, 3, 4, 5]) 2).m_data.length = 5 ∧
    (write (commit (fillAt (alloc (init_empty (α := Nat) false true) 5).2 0
        [1, 2, 3, 4, 5]) 2) [7]).2.m_data.length = 3 ∧
    (write (commit (fillAt (alloc (init_empty (α := Nat) false true) 5).2 0
        [1, 2, 3, 4, 5]) 2) [7]).2.m_data = [1, 2, 7] := by
  decide

end ContainerStream

namespace ContainerStream

variable {α : Type}

theorem read_m_data (s : CBuf α) (count : Nat) (advance : Bool) :
    (read s count advance).2.2.m_data = s.m_data := by
  unfold read
  dsimp only
  split
  · split <;> simp
  · rfl

theorem getn_m_data (s : CBuf α) (count : Nat) (advance : Bool) :
    (getn s count advance).2.2.m_data = s.m_data := by
  unfold getn
  split
  · rfl
  · exact read_m_data s count advance

theorem length_resize_ge [Inhabited α] (s : CBuf α) (n : Nat)
    (h : s.m_data.length = s.m_size) :
    s.m_data.length ≤ (resize_for_write s n).m_data.length := by
  rw [resize_m_data]
  split
  · rw [length_listResize]; omega
  · exact Nat.le_refl _

theorem seekpos_m_data_length_ge [Inhabited α] (s : CBuf α) (p : Int)
    (mIn mOut : Bool) (h : s.m_data.length = s.m_size) :
    s.m_data.length ≤ (seekpos s p mIn mOut).2.m_data.length := by
  unfold seekpos
  dsimp only
  split
  · split
    · simp
    · split
      · dsimp only
        rw [update_m_data]
        exact length_resize_ge s _ h
      · exact Nat.le_refl _
  · exact Nat.le_refl _

theorem seekoff_m_data_length_ge [Inhabited α] (s : CBuf α) (off : Int)
    (way : SeekDir) (mIn mOut : Bool) (h : s.m_data.length = s.m_size) :
    s.m_data.length ≤ (seekoff s off way mIn mOut).2.m_data.length := by
  cases way <;> exact seekpos_m_data_length_ge _ _ _ _ h

theorem seekpos_m_data_of_in [Inhabited α] (s : CBuf α) (p : Int) (mIn : Bool) :
    (seekpos s p mIn false).2.m_data = s.m_data := by
  unfold seekpos
  dsimp only
  split
  · split
    · simp
    · split
      · rename_i hc
        exact absurd hc.1 (by simp)
      · rfl
  · rfl

/-- C7 (amended): storage never shrinks below the resulting committed
extent, and from any state in which the storage length equals the
committed size — every state reachable without an over-allocating
`alloc`/smaller-`commit` pair — no operation shrinks storage.  In
general storage can shrink: `resize_for_write` resizes the container to
the new write head exactly, discarding slack a prior `alloc` left beyond
`m_size`. -/
theorem storage_never_shrinks_when_tight [Inhabited α] (op : BufOp α) (s : CBuf α)
    (hInv : Inv s) (hTight : s.m_data.length = s.m_size) :
    s.m_data.length ≤ (step op s).m_data.length := by
  obtain ⟨h1, h2⟩ := hInv
  cases op with
  | write d =>
      by_cases hw : can_write s = true
      · by_cases hd : d.length = 0
        · simp [step, write, hd]
        · show s.m_data.length ≤ (write s d).2.m_data.length
          rw [write_m_data_length s d ⟨h1, h2⟩ hw hd]
          split <;> omega
      · have hw' : can_write s = false := by simpa using hw
        simp [step, write, hw']
  | getn count advance =>
      show s.m_data.length ≤ (getn s count advance).2.2.m_data.length
      rw [getn_m_data]
  | seekpos position mIn mOut => exact seekpos_m_data_length_ge _ _ _ _ hTight
  | seekoff offset way mIn mOut => exact seekoff_m_data_length_ge _ _ _ _ _ hTight
  | alloc count =>
      show s.m_data.length ≤ (alloc s count).2.m_data.length
      unfold alloc
      split
      · exact Nat.le_refl _
      · exact length_resize_ge s _ hTight
  | commit actual =>
      show s.m_data.length ≤ (commit s actual).m_data.length
      unfold commit
      rw [update_m_data]
  | release count =>
      show s.m_data.length ≤ (release s count).m_data.length
      unfold release
      rw [update_m_data]
  | ungetc =>
      show s.m_data.length ≤ (ungetc s).2.m_data.length
      have hseek : (seekoff s (-1) SeekDir.cur true false).2.m_data = s.m_data :=
        seekpos_m_data_of_in s _ true
      unfold ungetc
      dsimp only
      split
      · rw [hseek]
      · rw [read_m_data, hseek]
  | close_read => exact Nat.le_refl _
  | close_write => exact Nat.le_refl _

/-- C7 witness: a plain write into a fresh (slack-free) write-mode
buffer does not shrink storage. -/
theorem storage_never_shrinks_witness :
    Inv (init_empty false true : CBuf Nat) ∧
    (init_empty false true : CBuf Nat).m_data.length =
      (init_empty false true : CBuf Nat).m_size ∧
    (init_empty false true : CBuf Nat).m_data.length ≤
      (step (BufOp.write [5]) (init_empty false true : CBuf Nat)).m_data.length := by
  refine ⟨by decide, rfl, ?_⟩
  exact storage_never_shrinks_when_tight (BufOp.write [5])
    (init_empty false true) (by decide) rfl

/-- C7 counterexample: after `alloc 5`, caller fill, `commit 2` — all
public-contract operations — storage has length 5; the write operation
on that state leaves storage of length 3: storage shrank. -/
theorem storage_shrinks_counterexample :
    (commit (fillAt (alloc (init_empty (α := Nat) false true) 5).2 0
        [1, 2, 3, 4, 5]) 2).m_data.length = 5 ∧
    (step (BufOp.write [7]) (commit (fillAt
        (alloc (init_empty (α := Nat) false true) 5).2 0
        [1, 2, 3, 4, 5]) 2)).m_data.length = 3 := by
  decide

end ContainerStream

namespace ContainerStream

variable {α : Type}

theorem inv_update_of_le (s : CBuf α) (n : Nat) (hInv : Inv s) (h : n ≤ s.m_size) :
    Inv (update_current_position s n) := by
  obtain ⟨h1, h2⟩ := hInv
  constructor
  · rw [update_m_current_position, update_m_size]
    split <;> omega
  · rw [update_m_size, update_m_data]
    split <;> omega

theorem inv_update_of_write (s : CBuf α) (n : Nat) (hInv : Inv s)
    (hw : can_write s = true) (h : n ≤ s.m_data.length) :
    Inv (update_current_position s n) := by
  obtain ⟨h1, h2⟩ := hInv
  rcases Nat.lt_or_ge s.m_size n with hlt | hge
  · constructor
    · rw [update_m_current_position, update_m_size, if_pos ⟨hw, hlt⟩]
    · rw [update_m_size, update_m_data, if_pos ⟨hw, hlt⟩]
      exact h
  · constructor
    · rw [update_m_current_position, update_m_size,
        if_neg (fun hc => absurd hc.2 (by omega))]
      exact hge
    · rw [update_m_size, update_m_data,
        if_neg (fun hc => absurd hc.2 (by omega))]
      exact h2

theorem inv_resize [Inhabited α] (s : CBuf α) (n : Nat) (hInv : Inv s) :
    Inv (resize_for_write s n) := by
  obtain ⟨h1, h2⟩ := hInv
  constructor
  · rw [resize_m_current_position, resize_m_size]
    exact h1
  · rw [resize_m_size, resize_m_data]
    split
    · rw [length_listResize]
      omega
    · exact h2

theorem resize_length_ge_arg [Inhabited α] (s : CBuf α) (n : Nat)
    (h : n ≤ s.m_data.length ∨ s.m_size < n) :
    n ≤ (resize_for_write s n).m_data.length := by
  rw [resize_m_data]
  split
  · rw [length_listResize]
  · rcases h with h | h
    · exact h
    · omega

theorem inv_seekpos [Inhabited α] (s : CBuf α) (p : Int) (mIn mOut : Bool)
    (hInv : Inv s) : Inv (seekpos s p mIn mOut).2 := by
  unfold seekpos
  dsimp only
  split
  · rename_i hp
    split
    · rename_i hc
      exact inv_update_of_le _ _ hInv (by
        have := hc.2.2
        omega)
    · split
      · rename_i hw
        refine inv_update_of_write _ _ (inv_resize _ _ hInv) ?_ ?_
        · rw [can_write_resize]
          exact hw.2
        · exact resize_length_ge_arg _ _ (by
            obtain ⟨-, h2⟩ := hInv
            omega)
      · exact hInv
  · exact hInv

theorem inv_seekoff [Inhabited α] (s : CBuf α) (off : Int) (way : SeekDir)
    (mIn mOut : Bool) (hInv : Inv s) : Inv (seekoff s off way mIn mOut).2 := by
  cases way <;> exact inv_seekpos _ _ _ _ hInv

theorem read_state_of_not_advance (s : CBuf α) (count : Nat) :
    (read s count false).2.2 = s := by
  unfold read
  dsimp only
  split
  · simp
  · rfl

/-- C8: every public operation, applied under its contract-side
precondition (`release` bounded by a prior `acquire` view, `commit`
following a successful `alloc` of at least the committed count),
preserves the state invariant `m_current_position ≤ m_size ≤
m_data.length`. -/
theorem inv_preserved [Inhabited α] (op : BufOp α) (s : CBuf α)
    (hInv : Inv s) (hPre : opPre op s) : Inv (step op s) := by
  obtain ⟨h1, h2⟩ := hInv
  cases op with
  | write d =>
      show Inv (write s d).2
      obtain ⟨data, pos, sz, mi, mo, ro, wo⟩ := s
      dsimp only at h1 h2
      by_cases hw : can_write (⟨data, pos, sz, mi, mo, ro, wo⟩ : CBuf α) = true
      · by_cases hd : d.length = 0
        · unfold write
          rw [if_pos (Or.inr hd)]
          exact ⟨h1, h2⟩
        · unfold write
          rw [if_neg (by simp [hw, hd])]
          dsimp only
          unfold resize_for_write
          by_cases hsz : sz < pos + d.length
          · rw [if_pos hsz]
            dsimp only
            unfold update_current_position
            rw [if_pos ⟨hw, hsz⟩]
            constructor
            · exact Nat.le_refl _
            · show pos + d.length ≤ (listCopyAt (listResize data (pos + d.length))
                pos d).length
              rw [length_listCopyAt _ _ _ (by simp [length_listResize]),
                length_listResize]
          · rw [if_neg hsz]
            dsimp only
            unfold update_current_position
            rw [if_neg (by rintro ⟨-, hlt⟩; exact hsz (by simpa using hlt))]
            constructor
            · show pos + d.length ≤ sz
              omega
            · show sz ≤ (listCopyAt data pos d).length
              rw [length_listCopyAt _ _ _ (by omega)]
              exact h2
      · have hw' : can_write (⟨data, pos, sz, mi, mo, ro, wo⟩ : CBuf α) = false := by
          simpa using hw
        unfold write
        rw [if_pos (Or.inl hw')]
        exact ⟨h1, h2⟩
  | getn count advance =>
      show Inv (getn s count advance).2.2
      unfold getn
      split
      · exact ⟨h1, h2⟩
      · unfold read
        dsimp only
        split
        · split
          · refine inv_update_of_le _ _ ⟨h1, h2⟩ ?_
            have ha : in_avail s = s.m_size - s.m_current_position := rfl
            have hm := Nat.min_le_right count (in_avail s)
            omega
          · exact ⟨h1, h2⟩
        · exact ⟨h1, h2⟩
  | seekpos position mIn mOut => exact inv_seekpos _ _ _ _ ⟨h1, h2⟩
  | seekoff offset way mIn mOut => exact inv_seekoff _ _ _ _ _ ⟨h1, h2⟩
  | alloc count =>
      show Inv (alloc s count).2
      unfold alloc
      split
      · exact ⟨h1, h2⟩
      · exact inv_resize _ _ ⟨h1, h2⟩
  | commit actual =>
      show Inv (commit s actual)
      obtain ⟨hw, hle⟩ := hPre
      exact inv_update_of_write _ _ ⟨h1, h2⟩ hw hle
  | release count =>
      show Inv (release s count)
      exact inv_update_of_le _ _ ⟨h1, h2⟩ hPre
  | ungetc =>
      show Inv (ungetc s).2
      unfold ungetc
      dsimp only
      split
      · exact inv_seekoff _ _ _ _ _ ⟨h1, h2⟩
      · rw [read_state_of_not_advance]
        exact inv_seekoff _ _ _ _ _ ⟨h1, h2⟩
  | close_read => exact ⟨h1, h2⟩
  | close_write => exact ⟨h1, h2⟩

/-- C8 witness: the invariant holds after a concrete write on a fresh
write-mode buffer satisfying the invariant. -/
theorem inv_preserved_witness :
    Inv (init_empty false true : CBuf Nat) ∧
    opPre (BufOp.write [3, 4]) (init_empty false true : CBuf Nat) ∧
    Inv (step (BufOp.write [3, 4]) (init_empty false true : CBuf Nat)) :=
  ⟨by decide, trivial,
    inv_preserved (BufOp.write [3, 4]) (init_empty false true) (by decide) trivial⟩

end ContainerStream

namespace ContainerStream

variable {α : Type}

/-- C9: on a writable buffer, `alloc(n)` hands out the region at the
head, and filling it with `d` then committing `n` produces exactly the
state `write(d, n)` produces, while `write` reports the full count. -/
theorem alloc_fill_commit_eq_write [Inhabited α] (s : CBuf α) (d : List α)
    (hInv : Inv s) (hw : can_write s = true) :
    (alloc s d.length).1 = some s.m_current_position ∧
    commit (fillAt (alloc s d.length).2 s.m_current_position d) d.length =
      (write s d).2 ∧
    (write s d).1 = d.length := by
  obtain ⟨data, pos, sz, mi, mo, ro, wo⟩ := s
  obtain ⟨h1, h2⟩ := hInv
  dsimp only at h1 h2
  refine ⟨?_, ?_, ?_⟩
  · unfold alloc
    rw [if_neg (by simp [hw])]
  · by_cases hd : d.length = 0
    · rw [List.length_eq_zero.mp hd]
      unfold write
      rw [if_pos (Or.inr List.length_nil)]
      unfold alloc
      rw [if_neg (by simp [hw])]
      dsimp only
      unfold resize_for_write
      rw [if_neg (by simp only [List.length_nil]; omega)]
      unfold fillAt commit update_current_position
      rw [if_neg (by
        rintro ⟨-, hc⟩
        simp only [List.length_nil] at hc
        omega)]
      simp [listCopyAt]
    · rw [write_unfold _ d hw hd]
      unfold alloc
      rw [if_neg (by simp [hw])]
      dsimp only
      unfold commit fillAt
      congr 1
      simp [resize_m_current_position]
  · by_cases hd : d.length = 0
    · unfold write
      rw [if_pos (Or.inr hd)]
      exact hd.symm
    · rw [write_unfold _ d hw hd]

/-- C9 witness: alloc-fill-commit of `[4, 5]` on a fresh write-mode
buffer lands in the same state as writing `[4, 5]`. -/
theorem alloc_fill_commit_eq_write_witness :
    Inv (init_empty false true : CBuf Nat) ∧
    can_write (init_empty false true : CBuf Nat) = true ∧
    commit (fillAt (alloc (init_empty false true : CBuf Nat) 2).2 0 [4, 5]) 2 =
      (write (init_empty false true : CBuf Nat) [4, 5]).2 := by
  have h := alloc_fill_commit_eq_write (init_empty false true : CBuf Nat) [4, 5]
    (by decide) rfl
  exact ⟨by decide, rfl, by simpa using h.2.1⟩

/-- Resolution of a `seekoff` direction to the absolute target
`seekpos` receives: `beg` is 0-based, `cur` is head-based, `end` is
based at the committed size. -/
def resolveSeekTarget (s : CBuf α) (way : SeekDir) (off : Int) : Int :=
  match way with
  | SeekDir.beg => 0 + off
  | SeekDir.cur => (s.m_current_position : Int) + off
  | SeekDir.fin => (s.m_size : Int) + off

/-- C4 (amended): `seekoff` resolves its direction (with end =
`m_size`) and delegates to `seekpos`.  On a buffer open for reading,
seeking in read mode succeeds exactly for `0 ≤ target ≤ m_size`, moving
the head there and returning the target, and otherwise returns the
end-of-stream sentinel `-1` leaving the state unchanged.  On a buffer
open for writing, seeking in write mode succeeds for every `target ≥ 0`,
moving the head to the target, raising `m_size` to it when it lies
beyond, resizing storage to exactly the target when it exceeds `m_size`
(which shrinks slack left by an over-allocating `alloc`), preserving the
committed prefix, and — in slack-free states — default-initialising the
gap between the old committed size and the target. -/
theorem seek_spec [Inhabited α] (s : CBuf α) (t off : Int) (way : SeekDir)
    (mIn mOut : Bool) (hInv : Inv s) :
    (seekoff s off way mIn mOut = seekpos s (resolveSeekTarget s way off) mIn mOut) ∧
    (can_read s = true →
      ((0 ≤ t ∧ t ≤ (s.m_size : Int)) →
        seekpos s t true false = (t, { s with m_current_position := t.toNat })) ∧
      ((t < 0 ∨ (s.m_size : Int) < t) →
        seekpos s t true false = (-1, s))) ∧
    (can_write s = true → 0 ≤ t →
      (seekpos s t false true).1 = t ∧
      (seekpos s t false true).2.m_current_position = t.toNat ∧
      (seekpos s t false true).2.m_size = max s.m_size t.toNat ∧
      (seekpos s t false true).2.m_data.length =
        (if s.m_size < t.toNat then t.toNat else s.m_data.length) ∧
      (seekpos s t false true).2.m_data.take s.m_size =
        s.m_data.take s.m_size ∧
      (s.m_data.length = s.m_size →
        (seekpos s t false true).2.m_data.drop s.m_size =
          List.replicate (t.toNat - s.m_size) default)) := by
  obtain ⟨h1, h2⟩ := hInv
  refine ⟨by cases way <;> rfl, ?_, ?_⟩
  · intro hr
    constructor
    · rintro ⟨ht0, hts⟩
      unfold seekpos
      rw [if_pos ht0]
      dsimp only
      rw [if_pos ⟨rfl, hr, hts⟩]
      rw [update_m_current_position]
      refine Prod.ext ?_ ?_
      · exact Int.toNat_of_nonneg ht0
      · show update_current_position s t.toNat = _
        unfold update_current_position
        rw [if_neg (by rintro ⟨-, hc⟩; omega)]
    · intro hb
      unfold seekpos
      rcases hb with hb | hb
      · rw [if_neg (by omega)]
      · rw [if_pos (by omega)]
        dsimp only
        rw [if_neg (by rintro ⟨-, -, hc⟩; omega)]
        rw [if_neg (by rintro ⟨hc, -⟩; exact absurd hc (by simp))]
  · intro hw ht0
    unfold seekpos
    rw [if_pos ht0]
    dsimp only
    rw [if_neg (by rintro ⟨hc, -⟩; exact absurd hc (by simp))]
    rw [if_pos ⟨rfl, hw⟩]
    dsimp only
    have hts : ((t.toNat : Nat) : Int) = t := Int.toNat_of_nonneg ht0
    refine ⟨by rw [update_m_current_position]; exact hts,
      by rw [update_m_current_position], ?_, ?_, ?_, ?_⟩
    · rw [update_m_size, can_write_resize, resize_m_size]
      rw [hw]
      by_cases hsz : s.m_size < t.toNat
      · rw [if_pos ⟨rfl, hsz⟩]
        omega
      · rw [if_neg (by rintro ⟨-, hc⟩; omega)]
        omega
    · rw [update_m_data, resize_m_data]
      by_cases hsz : s.m_size < t.toNat
      · rw [if_pos hsz, if_pos hsz, length_listResize]
      · rw [if_neg hsz, if_neg hsz]
    · rw [update_m_data, resize_m_data]
      by_cases hsz : s.m_size < t.toNat
      · rw [if_pos hsz]
        exact listResize_take _ _ _ (by omega) h2
      · rw [if_neg hsz]
    · intro htight
      rw [update_m_data, resize_m_data]
      by_cases hsz : s.m_size < t.toNat
      · rw [if_pos hsz]
        unfold listResize
        rw [List.take_of_length_le (by omega), List.drop_left' htight, htight]
      · rw [if_neg hsz]
        rw [List.drop_eq_nil_of_le (by omega),
          show t.toNat - s.m_size = 0 by omega]
        rfl

/-- C4 witness: on a concrete read-mode buffer of two elements, seeking
to absolute position 1 in read mode returns 1. -/
theorem seek_spec_witness :
    Inv (init_data [7, 8] true false : CBuf Nat) ∧
    (seekpos (init_data [7, 8] true false : CBuf Nat) 1 true false).1 = 1 := by
  have h := ((seek_spec (init_data [7, 8] true false : CBuf Nat) 1 0 SeekDir.beg
    true false (by decide)).2.1 rfl).1 ⟨by decide, by decide⟩
  exact ⟨by decide, by rw [h]⟩

/-- C4 counterexample: (i) in a contract-reachable slack state
(`alloc 5`, fill with `[1,2,3,4,5]`, `commit 2`), a write-mode seek to 4
leaves the gap positions 2 and 3 holding the slack values 3 and 4 — not
the default 0 — and shrinks storage from 5 to 4 elements; (ii) on a
read-mode buffer whose read direction is closed, a read-mode seek to the
in-range position 1 fails with the sentinel. -/
theorem seek_counterexample :
    (seekpos (commit (fillAt (alloc (init_empty (α := Nat) false true) 5).2 0
        [1, 2, 3, 4, 5]) 2) 4 false true).2.m_data = [1, 2, 3, 4] ∧
    (default : Nat) = 0 ∧
    (seekpos (close_read (init_data [1, 2] true false) : CBuf Nat) 1
        true false).1 = -1 := by
  decide

end ContainerStream
